import Mathlib

/-!
Verification of the charm-kine event/persistence runtime specification.

Python strings are modelled as `List Char`.  The framework core
(`juju/framework.py`) is not present in the source tree — only its test
suite, the spec, and its callers (`juju/main.py`, `charm.py`) are — so the
Handle / Framework / StoredState definitions below are modelled from the
spec, as their doc comments state.  `juju/main.py` and `charm.py` are
embedded from their source.
-/

/-! ## Handle (spec §3, §4.1) -/

/-- Modelled from the spec: a Handle is `{parent: Handle|none, kind: string,
key: string|none}` (spec §3); `juju/framework.py` is missing from the tree.
`root` is a Handle with no parent. -/
inductive Handle where
  | root (kind : List Char) (key : Option (List Char))
  | child (parent : Handle) (kind : List Char) (key : Option (List Char))
deriving DecidableEq, Repr

/-- A path segment: a kind together with an optional instance key. -/
abbrev Seg := List Char × Option (List Char)

/-- The segments of a Handle, root first. -/
def Handle.toSegments : Handle → List Seg
  | .root k key => [(k, key)]
  | .child p k key => p.toSegments ++ [(k, key)]

/-- Modelled from the spec: one segment of the canonical string form,
`kind` or `kind[key]` (spec §3). -/
def segChars : Seg → List Char
  | (k, none) => k
  | (k, some key) => k ++ '[' :: (key ++ [']'])

/-- Join character lists with a separator character. -/
def joinSep (c : Char) : List (List Char) → List Char
  | [] => []
  | [s] => s
  | s :: ss => s ++ c :: joinSep c ss

/-- Modelled from the spec: `str(handle)` — segments joined by `/` from root
to leaf (spec §3, §4.1). -/
def Handle.toPath (h : Handle) : List Char :=
  joinSep '/' (h.toSegments.map segChars)

/-- Split a character list on every occurrence of a separator character
(the model of Python `str.split`). -/
def splitOnChar (c : Char) : List Char → List (List Char)
  | [] => [[]]
  | x :: xs =>
    if x = c then [] :: splitOnChar c xs
    else
      match splitOnChar c xs with
      | [] => [[x]]
      | s :: ss => (x :: s) :: ss

/-- Modelled from the spec: parse one path segment, `kind` or `kind[key]`;
a malformed segment fails (spec §4.1). -/
def parseSeg (cs : List Char) : Option Seg :=
  match splitOnChar '[' cs with
  | [k] => some (k, none)
  | [k, rest] =>
    match rest.reverse with
    | ']' :: revKey => some (k, some revKey.reverse)
    | _ => none
  | _ => none

/-- Parse every segment of a path, failing if any one is malformed. -/
def parseSegs : List (List Char) → Option (List Seg)
  | [] => some []
  | c :: cs =>
    match parseSeg c, parseSegs cs with
    | some s, some ss => some (s :: ss)
    | _, _ => none

/-- Rebuild a Handle from a nonempty list of segments below a given root. -/
def handleGo (h : Handle) : List Seg → Handle
  | [] => h
  | (k, key) :: rest => handleGo (.child h k key) rest

/-- Rebuild a Handle from its root-first segment list. -/
def handleOfSegs : List Seg → Option Handle
  | [] => none
  | (k, key) :: rest => some (handleGo (.root k key) rest)

/-- Modelled from the spec: `Handle.from_path` — the exact inverse of the
canonical string form (spec §4.1); fails on malformed paths. -/
def Handle.fromPath (cs : List Char) : Option Handle :=
  (parseSegs (splitOnChar '/' cs)).bind handleOfSegs

/-- A kind or key string is well formed when it contains neither the path
separator `/` nor the key opener `[`. -/
def goodStr (cs : List Char) : Bool :=
  cs.all fun c => decide (c ≠ '/') && decide (c ≠ '[')

/-- Well-formedness of one segment. -/
def segWF : Seg → Bool
  | (k, none) => goodStr k
  | (k, some key) => goodStr k && goodStr key

/-- Well-formedness of every kind and key along a Handle's parent chain. -/
def Handle.wf : Handle → Bool
  | .root k key => segWF (k, key)
  | .child p k key => p.wf && segWF (k, key)

theorem toSegments_ne_nil (h : Handle) : h.toSegments ≠ [] := by
  cases h with
  | root k key => simp [Handle.toSegments]
  | child p k key => simp [Handle.toSegments]

theorem splitOnChar_ne_nil (c : Char) (xs : List Char) : splitOnChar c xs ≠ [] := by
  induction xs with
  | nil => simp [splitOnChar]
  | cons x xs ih =>
    simp only [splitOnChar]
    split
    · simp
    · split
      · simp
      · simp

theorem splitOnChar_of_not_mem (c : Char) (xs : List Char) (h : c ∉ xs) :
    splitOnChar c xs = [xs] := by
  induction xs with
  | nil => simp [splitOnChar]
  | cons x xs ih =>
    simp only [List.mem_cons, not_or] at h
    have hx : ¬ (x = c) := fun hc => h.1 (hc ▸ rfl)
    simp only [splitOnChar, if_neg hx, ih h.2]

theorem splitOnChar_append (c : Char) (xs ys : List Char) (h : c ∉ xs) :
    splitOnChar c (xs ++ c :: ys) = xs :: splitOnChar c ys := by
  induction xs with
  | nil => simp [splitOnChar]
  | cons x xs ih =>
    simp only [List.mem_cons, not_or] at h
    have hx : ¬ (x = c) := fun hc => h.1 (hc ▸ rfl)
    simp only [List.cons_append, splitOnChar, if_neg hx, List.append_eq]
    rw [ih h.2]

theorem splitOnChar_joinSep (c : Char) (ss : List (List Char)) (hne : ss ≠ [])
    (h : ∀ s ∈ ss, c ∉ s) : splitOnChar c (joinSep c ss) = ss := by
  induction ss with
  | nil => exact absurd rfl hne
  | cons s rest ih =>
    cases rest with
    | nil =>
      simp only [joinSep]
      exact splitOnChar_of_not_mem c s (h s (by simp))
    | cons t rest' =>
      have hjoin : joinSep c (s :: t :: rest') = s ++ c :: joinSep c (t :: rest') := rfl
      rw [hjoin, splitOnChar_append c s _ (h s (by simp))]
      rw [ih (by simp) (fun u hu => h u (List.mem_cons_of_mem s hu))]

theorem goodStr_not_mem {cs : List Char} (h : goodStr cs = true) :
    '/' ∉ cs ∧ '[' ∉ cs := by
  simp only [goodStr, List.all_eq_true, Bool.and_eq_true, decide_eq_true_eq] at h
  constructor
  · intro hm
    exact (h '/' hm).1 rfl
  · intro hm
    exact (h '[' hm).2 rfl

theorem segChars_not_slash {s : Seg} (h : segWF s = true) : '/' ∉ segChars s := by
  obtain ⟨k, key⟩ := s
  cases key with
  | none =>
    simp only [segWF] at h
    exact (goodStr_not_mem h).1
  | some kk =>
    simp only [segWF, Bool.and_eq_true] at h
    have hk := goodStr_not_mem h.1
    have hkk := goodStr_not_mem h.2
    simp only [segChars, List.mem_append, List.mem_cons, List.mem_singleton, not_or]
    exact ⟨hk.1, by decide, hkk.1, by decide⟩

theorem parseSeg_segChars (s : Seg) (h : segWF s = true) :
    parseSeg (segChars s) = some s := by
  obtain ⟨k, key⟩ := s
  cases key with
  | none =>
    have hk := goodStr_not_mem (show goodStr k = true from h)
    simp only [segChars, parseSeg, splitOnChar_of_not_mem '[' k hk.2]
  | some kk =>
    simp only [segWF, Bool.and_eq_true] at h
    have hk := goodStr_not_mem h.1
    have hkk := goodStr_not_mem h.2
    have hsplit : splitOnChar '[' (k ++ '[' :: (kk ++ [']'])) =
        k :: splitOnChar '[' (kk ++ [']']) := splitOnChar_append '[' k _ hk.2
    have hrest : splitOnChar '[' (kk ++ [']']) = [kk ++ [']']] := by
      apply splitOnChar_of_not_mem
      simp only [List.mem_append, List.mem_singleton, not_or]
      exact ⟨hkk.2, by decide⟩
    simp only [segChars, parseSeg, hsplit, hrest, List.reverse_append,
      List.reverse_cons, List.reverse_nil, List.nil_append, List.singleton_append,
      List.reverse_reverse]

theorem parseSegs_map_segChars (segs : List Seg) (h : ∀ s ∈ segs, segWF s = true) :
    parseSegs (segs.map segChars) = some segs := by
  induction segs with
  | nil => rfl
  | cons s rest ih =>
    simp only [List.map_cons, parseSegs, parseSeg_segChars s (h s (by simp)),
      ih (fun u hu => h u (List.mem_cons_of_mem s hu))]

theorem handleGo_append (h : Handle) (xs : List Seg) (k : List Char)
    (key : Option (List Char)) :
    handleGo h (xs ++ [(k, key)]) = .child (handleGo h xs) k key := by
  induction xs generalizing h with
  | nil => rfl
  | cons x rest ih =>
    obtain ⟨xk, xkey⟩ := x
    simp only [List.cons_append, handleGo, List.append_eq, ih]

theorem handleOfSegs_toSegments (h : Handle) :
    handleOfSegs h.toSegments = some h := by
  induction h with
  | root k key => rfl
  | child p k key ih =>
    rcases hp : p.toSegments with _ | ⟨⟨k0, key0⟩, rest⟩
    · exact absurd hp (toSegments_ne_nil p)
    · rw [hp] at ih
      simp only [handleOfSegs, Option.some.injEq] at ih
      simp only [Handle.toSegments, hp, List.cons_append, handleOfSegs,
        handleGo_append, ih]

theorem wf_toSegments {h : Handle} (hwf : h.wf = true) :
    ∀ s ∈ h.toSegments, segWF s = true := by
  induction h with
  | root k key =>
    intro s hs
    simp only [Handle.toSegments, List.mem_singleton] at hs
    subst hs
    exact hwf
  | child p k key ih =>
    intro s hs
    simp only [Handle.wf, Bool.and_eq_true] at hwf
    simp only [Handle.toSegments, List.mem_append, List.mem_singleton] at hs
    rcases hs with hs | hs
    · exact ih hwf.1 s hs
    · subst hs
      exact hwf.2

/-- C6 (as stated) fails: a Handle whose kind contains the separator `/`
does not round-trip — parsing its path yields a two-level Handle. -/
theorem handle_roundtrip_counterexample :
    Handle.fromPath (Handle.toPath (.root ['a', '/', 'b'] none)) ≠
      some (.root ['a', '/', 'b'] none) := by
  decide

/-- C6 (amended): for every Handle whose kinds and keys contain neither `/`
nor `[`, `str(h)` produces the canonical path and `Handle.from_path(str(h))`
returns a Handle structurally equal to `h`. -/
theorem handle_path_roundtrip (h : Handle) (hwf : h.wf = true) :
    Handle.fromPath h.toPath = some h := by
  have hseg := wf_toSegments hwf
  have hnoslash : ∀ s ∈ h.toSegments.map segChars, '/' ∉ s := by
    intro s hs
    rcases List.mem_map.mp hs with ⟨seg, hmem, rfl⟩
    exact segChars_not_slash (hseg seg hmem)
  have hne : h.toSegments.map segChars ≠ [] := by
    simp [toSegments_ne_nil h]
  unfold Handle.fromPath Handle.toPath
  rw [splitOnChar_joinSep '/' _ hne hnoslash, parseSegs_map_segChars _ hseg,
    Option.some_bind, handleOfSegs_toSegments]

/-- C6 witness: the test's Handle `root[1]/child[2]` round-trips. -/
theorem handle_path_roundtrip_witness :
    (Handle.child (.root ['r', 'o', 'o', 't'] (some ['1']))
        ['c', 'h', 'i', 'l', 'd'] (some ['2'])).wf = true ∧
      Handle.fromPath (Handle.toPath (.child (.root ['r', 'o', 'o', 't'] (some ['1']))
        ['c', 'h', 'i', 'l', 'd'] (some ['2']))) =
        some (.child (.root ['r', 'o', 'o', 't'] (some ['1']))
          ['c', 'h', 'i', 'l', 'd'] (some ['2'])) :=
  ⟨by decide, handle_path_roundtrip _ (by decide)⟩

/-! ## Decimal digits (Python `str`/`int` on naturals) -/

/-- Decimal digits of a natural number, least significant first, with
explicit fuel so that the definition reduces by computation. -/
def natDigitsRevFuel : Nat → Nat → List Nat
  | 0, _ => []
  | _ + 1, 0 => []
  | fuel + 1, n + 1 => (n + 1) % 10 :: natDigitsRevFuel fuel ((n + 1) / 10)

/-- Decimal digits of a natural number, least significant first. -/
def natDigitsRev (n : Nat) : List Nat := natDigitsRevFuel n n

/-- The decimal string of a natural number (the model of Python `str` on a
nonnegative integer). -/
def natChars (n : Nat) : List Char :=
  if n = 0 then ['0'] else ((natDigitsRev n).map Nat.digitChar).reverse

/-- Python `int` applied to a decimal string: every character must be a
digit, otherwise the conversion fails. -/
def digitsToNat (cs : List Char) : Option Nat :=
  if cs ≠ [] ∧ cs.all Char.isDigit then
    some (cs.foldl (fun acc c => acc * 10 + (c.toNat - 48)) 0)
  else none

theorem natDigitsRevFuel_eq_digits (fuel : Nat) :
    ∀ n, n ≤ fuel → natDigitsRevFuel fuel n = Nat.digits 10 n := by
  induction fuel with
  | zero =>
    intro n hn
    interval_cases n
    simp [natDigitsRevFuel]
  | succ fuel ih =>
    intro n hn
    cases n with
    | zero => simp [natDigitsRevFuel]
    | succ m =>
      have h10 : (10 : Nat) = 8 + 2 := rfl
      have hdig : Nat.digits 10 (m + 1) = (m + 1) % 10 :: Nat.digits 10 ((m + 1) / 10) := by
        rw [h10]
        exact Nat.digits_add_two_add_one 8 m
      have hdiv : (m + 1) / 10 ≤ fuel := by
        have hlt : (m + 1) / 10 < m + 1 := Nat.div_lt_self (Nat.succ_pos m) (by norm_num)
        omega
      simp only [natDigitsRevFuel, hdig, ih _ hdiv]

theorem natDigitsRev_eq_digits (n : Nat) : natDigitsRev n = Nat.digits 10 n :=
  natDigitsRevFuel_eq_digits n n (Nat.le_refl n)

theorem natDigitsRev_lt_ten {n d : Nat} (h : d ∈ natDigitsRev n) : d < 10 := by
  rw [natDigitsRev_eq_digits] at h
  exact Nat.digits_lt_base (by norm_num) h

theorem digitChar_isDigit {d : Nat} (h : d < 10) : (Nat.digitChar d).isDigit = true := by
  interval_cases d <;> rfl

theorem digitChar_toNat {d : Nat} (h : d < 10) : (Nat.digitChar d).toNat - 48 = d := by
  interval_cases d <;> rfl

theorem foldl_digit_chars (L : List Nat) (hL : ∀ d ∈ L, d < 10) (a : Nat) :
    List.foldl (fun acc c => acc * 10 + (c.toNat - 48)) a (L.map Nat.digitChar).reverse =
      a * 10 ^ L.length + Nat.ofDigits 10 L := by
  induction L generalizing a with
  | nil => simp [Nat.ofDigits]
  | cons d L' ih =>
    have hrev : ((d :: L').map Nat.digitChar).reverse =
        (L'.map Nat.digitChar).reverse ++ [Nat.digitChar d] := by
      simp
    rw [hrev, List.foldl_append, ih (fun x hx => hL x (List.mem_cons_of_mem d hx))]
    simp only [List.foldl_cons, List.foldl_nil, Nat.ofDigits_cons, List.length_cons,
      digitChar_toNat (hL d (by simp))]
    ring

theorem natChars_all_digit (n : Nat) : (natChars n).all Char.isDigit = true := by
  by_cases h0 : n = 0
  · subst h0
    rfl
  · simp only [natChars, if_neg h0, List.all_eq_true]
    intro c hc
    rw [List.mem_reverse] at hc
    rcases List.mem_map.mp hc with ⟨d, hd, rfl⟩
    exact digitChar_isDigit (natDigitsRev_lt_ten hd)

theorem natChars_ne_nil (n : Nat) : natChars n ≠ [] := by
  by_cases h0 : n = 0
  · subst h0
    simp [natChars]
  · obtain ⟨m, rfl⟩ := Nat.exists_eq_succ_of_ne_zero h0
    simp [natChars, natDigitsRev, natDigitsRevFuel]

theorem digitsToNat_natChars (n : Nat) : digitsToNat (natChars n) = some n := by
  by_cases h0 : n = 0
  · subst h0
    rfl
  · have hall := natChars_all_digit n
    have hne := natChars_ne_nil n
    unfold digitsToNat
    rw [if_pos (And.intro hne hall), Option.some.injEq]
    unfold natChars
    rw [if_neg h0, natDigitsRev_eq_digits,
      foldl_digit_chars _ (fun d hd => Nat.digits_lt_base (by norm_num) hd) 0,
      Nat.ofDigits_digits]
    simp

theorem natChars_no_slash (n : Nat) : '/' ∉ natChars n := by
  intro hmem
  have hall := natChars_all_digit n
  rw [List.all_eq_true] at hall
  have := hall '/' hmem
  simp [Char.isDigit] at this

/-! ## Framework: dispatch / defer / reemit (spec §4.3) -/

/-- An event snapshot payload: serialized attribute pairs. -/
abbrev Payload := List (List Char × List Char)

/-- Modelled from the spec: an emitted event — the publisher's handle path,
the event kind, the globally assigned sequence number (the event Handle's
key, spec §4.3), and the snapshot payload (`juju/framework.py` is missing
from the tree). -/
structure EventRecord where
  parentPath : List Char
  kind : List Char
  seq : Nat
  payload : Payload
deriving DecidableEq, Repr

/-- The canonical store path of an event: `parentPath/kind[seq]`. -/
def eventPath (e : EventRecord) : List Char :=
  e.parentPath ++ '/' :: (e.kind ++ '[' :: (natChars e.seq ++ [']']))

/-- Modelled from the spec: an observer registration — the publisher
(parent Handle path, kind) pattern plus the subscriber (spec §3); `run` is
the observer's own code over its world state `σ`, and the returned Bool
records whether it called `defer()` during this invocation (spec §4.3).
`id` is the registration index. -/
structure Observer (σ : Type) where
  id : Nat
  parentPath : List Char
  kind : List Char
  run : σ → EventRecord → σ × Bool


/-- A PENDING event together with its live deferral notices: the ids of
the observers that deferred it during its most recent dispatch pass, in
invocation order.  The test trace of `test_defer_and_reemit`
(src/lib/test/test_framework.py lines 214-237) shows that redelivery is
per notice: an observer that does not defer stops being redelivered while
other observers' notices stay live. -/
structure PendingEvent where
  event : EventRecord
  obsIds : List Nat
deriving DecidableEq, Repr

/-- Modelled from the spec: the Framework state — a durable snapshot store
keyed by Handle path, a type registry keyed by (parent path, kind), the
observer registry in registration order, the PENDING events with their
live notices, and the global emission sequence counter (spec §2, §4.3). -/
structure FrameworkState (σ : Type) where
  store : List (List Char × Payload)
  registry : List (List Char × List Char)
  observers : List (Observer σ)
  pending : List PendingEvent
  seqCounter : Nat
  obsState : σ

/-- Look a path up in the snapshot store. -/
def lookupStore (path : List Char) : List (List Char × Payload) → Option Payload
  | [] => none
  | pv :: rest => if pv.1 = path then some pv.2 else lookupStore path rest

/-- The possible framework storage errors (spec §7). -/
inductive FwError where
  | noSnapshot (path : List Char)
  | noType (parentPath kind : List Char)
deriving DecidableEq, Repr

/-- Modelled from the spec: `load_snapshot` — loading a Handle with no
stored snapshot fails with the missing-snapshot error carrying the Handle's
path; loading a snapshot whose (parent, kind) has no registered type is the
distinct unknown-type condition (spec §4.3, §7). -/
def loadSnapshot (fs : FrameworkState σ) (parentPath kind path : List Char) :
    Except FwError Payload :=
  match lookupStore path fs.store with
  | none => .error (.noSnapshot path)
  | some v =>
    if (parentPath, kind) ∈ fs.registry then .ok v
    else .error (.noType parentPath kind)

/-- The observers registered for an event's (parent, kind), in registration
order. -/
def matchingObservers (obs : List (Observer σ)) (e : EventRecord) : List (Observer σ) :=
  obs.filter fun o => decide (o.parentPath = e.parentPath) && decide (o.kind = e.kind)

/-- Look up a registered observer by its registration id. -/
def findObserver (obs : List (Observer σ)) (i : Nat) : Option (Observer σ) :=
  obs.find? fun o => decide (o.id = i)

/-- Modelled from the spec: the initial DISPATCHED pass run by `emit` — it
invokes every registered observer for the event's (parent, kind) in
registration order, threading the observer world state; the result carries
the final world state, the ids of the observers that called `defer()` (the
notices to record), and the invocation log as (observer id, sequence
number) pairs (spec §4.3). -/
def runEmitPass (e : EventRecord) : List (Observer σ) → σ → σ × List Nat × List (Nat × Nat)
  | [], s => (s, [], [])
  | o :: rest, s =>
    let r1 := o.run s e
    let r2 := runEmitPass e rest r1.1
    (r2.1, (if r1.2 then [o.id] else []) ++ r2.2.1, (o.id, e.seq) :: r2.2.2)

/-- A redelivery DISPATCHED pass run by `reemit`: it invokes exactly the
observers holding a live notice for the event, in notice order (a notice
whose observer no longer exists is silently discarded); the result carries
the final world state, the ids of the observers that deferred again, and
the invocation log. -/
def runNoticePass (e : EventRecord) (obs : List (Observer σ)) :
    List Nat → σ → σ × List Nat × List (Nat × Nat)
  | [], s => (s, [], [])
  | i :: rest, s =>
    match findObserver obs i with
    | none => runNoticePass e obs rest s
    | some o =>
      let r1 := o.run s e
      let r2 := runNoticePass e obs rest r1.1
      (r2.1, (if r1.2 then [i] else []) ++ r2.2.1, (i, e.seq) :: r2.2.2)

/-- The event built by `emit` from a framework state: it receives the next
sequence number as its Handle key. -/
def emittedEvent (fs : FrameworkState σ) (parentPath kind : List Char)
    (payload : Payload) : EventRecord :=
  ⟨parentPath, kind, fs.seqCounter + 1, payload⟩

/-- Modelled from the spec: `emit` — allocates the next sequence number,
builds the event, persists its snapshot unconditionally, then immediately
performs one DISPATCHED pass over every registered observer for the
event's (parent, kind); the event ends PENDING (with one notice per
deferring observer) if at least one observer called `defer()`, otherwise
DROPPED, deleting its snapshot (spec §4.3). -/
def emit (fs : FrameworkState σ) (parentPath kind : List Char) (payload : Payload) :
    FrameworkState σ × List (Nat × Nat) :=
  let e := emittedEvent fs parentPath kind payload
  let fs1 : FrameworkState σ := { fs with
    seqCounter := e.seq
    store := (eventPath e, payload) ::
      (fs.store.filter fun pv => decide (pv.1 ≠ eventPath e)) }
  let r := runEmitPass e (matchingObservers fs1.observers e) fs1.obsState
  if r.2.1 = [] then
    ({ fs1 with
        obsState := r.1
        store := fs1.store.filter fun pv => decide (pv.1 ≠ eventPath e) },
      r.2.2)
  else
    ({ fs1 with
        obsState := r.1
        pending := fs1.pending ++ [⟨e, r.2.1⟩] },
      r.2.2)

/-- One redelivery pass over a pending event during `reemit`: deliver to
its live notice holders; notices of observers that deferred again stay
live; if no invoked observer deferred, the event is DROPPED — removed from
the pending set and its snapshot deleted from the store. -/
def redispatch (fs : FrameworkState σ) (pe : PendingEvent) :
    FrameworkState σ × List (Nat × Nat) :=
  let r := runNoticePass pe.event fs.observers pe.obsIds fs.obsState
  if r.2.1 = [] then
    ({ fs with
        obsState := r.1
        store := fs.store.filter fun pv => decide (pv.1 ≠ eventPath pe.event)
        pending := fs.pending.filter fun q => decide (q.event.seq ≠ pe.event.seq) },
      r.2.2)
  else
    ({ fs with
        obsState := r.1
        pending := fs.pending.map fun q =>
          if q.event.seq = pe.event.seq then ⟨q.event, r.2.1⟩ else q },
      r.2.2)

/-- Redelivery order of pending events: ascending sequence number. -/
def seqLE (a b : PendingEvent) : Prop := a.event.seq ≤ b.event.seq

instance : DecidableRel (seqLE : PendingEvent → PendingEvent → Prop) :=
  fun a b => Nat.decLe a.event.seq b.event.seq

instance : IsTotal PendingEvent seqLE := ⟨fun a b => Nat.le_total a.event.seq b.event.seq⟩

instance : IsTrans PendingEvent seqLE := ⟨fun _ _ _ h1 h2 => Nat.le_trans h1 h2⟩

/-- Modelled from the spec: the body of `reemit` over an explicit list of
pending events — each event's snapshot is loaded; an event whose type is
unknown to the registry is silently skipped (its stale notices and
snapshot are purged, cf. `test_reemit_ignores_unknown_event_type`) rather
than treated as an error; every other event gets one redelivery pass
(spec §4.3). -/
def reemitGo : List PendingEvent → FrameworkState σ →
    Except FwError (FrameworkState σ × List (Nat × Nat))
  | [], fs => .ok (fs, [])
  | pe :: rest, fs =>
    match loadSnapshot fs pe.event.parentPath pe.event.kind (eventPath pe.event) with
    | .error (.noType _ _) =>
      reemitGo rest { fs with
        store := fs.store.filter fun pv => decide (pv.1 ≠ eventPath pe.event)
        pending := fs.pending.filter fun q => decide (q.event.seq ≠ pe.event.seq) }
    | .error err => .error err
    | .ok _ =>
      let r := redispatch fs pe
      match reemitGo rest r.1 with
      | .error err => .error err
      | .ok (fs2, log2) => .ok (fs2, r.2 ++ log2)

/-- Modelled from the spec: `reemit` — reads all currently PENDING events
and performs one redelivery pass per pending event in ascending
sequence-number order; unknown event types are skipped silently
(spec §4.3). -/
def reemit (fs : FrameworkState σ) :
    Except FwError (FrameworkState σ × List (Nat × Nat)) :=
  reemitGo (List.insertionSort seqLE fs.pending) fs

/-- The invocation log one `reemit` call produces: each pending event with
a registered type, in ascending sequence order, delivered exactly to its
live notice holders in notice order. -/
def noticeLog (obs : List (Observer σ)) (pe : PendingEvent) : List (Nat × Nat) :=
  (pe.obsIds.filter fun i => (findObserver obs i).isSome).map
    fun i => (i, pe.event.seq)

/-- The full invocation log of one `reemit` call over a framework state. -/
def reemitLog (fs : FrameworkState σ) : List (Nat × Nat) :=
  ((List.insertionSort seqLE fs.pending).filter
      (fun pe => decide ((pe.event.parentPath, pe.event.kind) ∈ fs.registry))).flatMap
    (noticeLog fs.observers)

theorem lookupStore_filter_ne (p q : List Char) (st : List (List Char × Payload))
    (h : p ≠ q) :
    lookupStore p (st.filter fun pv => decide (pv.1 ≠ q)) = lookupStore p st := by
  induction st with
  | nil => rfl
  | cons pv rest ih =>
    by_cases hq : pv.1 = q
    · have hpv : ¬ (pv.1 = p) := fun hp => h (hp ▸ hq)
      have hfil : ((pv :: rest).filter fun x => decide (x.1 ≠ q)) =
          rest.filter fun x => decide (x.1 ≠ q) := by
        simp [List.filter_cons, hq]
      rw [hfil]
      simp only [lookupStore, if_neg hpv]
      exact ih
    · have hfil : ((pv :: rest).filter fun x => decide (x.1 ≠ q)) =
          pv :: (rest.filter fun x => decide (x.1 ≠ q)) := by
        simp [List.filter_cons, hq]
      rw [hfil]
      by_cases hp : pv.1 = p
      · simp only [lookupStore, if_pos hp]
      · simp only [lookupStore, if_neg hp]
        exact ih

theorem lookupStore_filter_self (p : List Char) (st : List (List Char × Payload)) :
    lookupStore p (st.filter fun pv => decide (pv.1 ≠ p)) = none := by
  induction st with
  | nil => rfl
  | cons pv rest ih =>
    by_cases hp : pv.1 = p
    · have hfil : ((pv :: rest).filter fun x => decide (x.1 ≠ p)) =
          rest.filter fun x => decide (x.1 ≠ p) := by
        simp [List.filter_cons, hp]
      rw [hfil]
      exact ih
    · have hfil : ((pv :: rest).filter fun x => decide (x.1 ≠ p)) =
          pv :: (rest.filter fun x => decide (x.1 ≠ p)) := by
        simp [List.filter_cons, hp]
      rw [hfil]
      simp only [lookupStore, if_neg hp]
      exact ih

theorem runNoticePass_log (e : EventRecord) (obs : List (Observer σ)) (ids : List Nat) :
    ∀ s : σ, (runNoticePass e obs ids s).2.2 =
      (ids.filter fun i => (findObserver obs i).isSome).map fun i => (i, e.seq) := by
  induction ids with
  | nil => intro s; rfl
  | cons i rest ih =>
    intro s
    simp only [runNoticePass]
    cases hfind : findObserver obs i with
    | none => simp [List.filter_cons, hfind, ih s]
    | some o => simp [List.filter_cons, hfind, ih]

theorem redispatch_observers (fs : FrameworkState σ) (pe : PendingEvent) :
    (redispatch fs pe).1.observers = fs.observers := by
  unfold redispatch
  dsimp only
  split <;> rfl

theorem redispatch_registry (fs : FrameworkState σ) (pe : PendingEvent) :
    (redispatch fs pe).1.registry = fs.registry := by
  unfold redispatch
  dsimp only
  split <;> rfl

theorem redispatch_seqCounter (fs : FrameworkState σ) (pe : PendingEvent) :
    (redispatch fs pe).1.seqCounter = fs.seqCounter := by
  unfold redispatch
  dsimp only
  split <;> rfl

theorem redispatch_store_other (fs : FrameworkState σ) (pe : PendingEvent)
    (p : List Char) (h : p ≠ eventPath pe.event) :
    lookupStore p (redispatch fs pe).1.store = lookupStore p fs.store := by
  unfold redispatch
  dsimp only
  split
  · exact lookupStore_filter_ne p _ fs.store h
  · rfl

theorem redispatch_log (fs : FrameworkState σ) (pe : PendingEvent) :
    (redispatch fs pe).2 = noticeLog fs.observers pe := by
  unfold redispatch noticeLog
  dsimp only
  split <;> exact runNoticePass_log pe.event fs.observers pe.obsIds fs.obsState

theorem noticeLog_snd {obs : List (Observer σ)} {pe : PendingEvent} {p : Nat × Nat}
    (h : p ∈ noticeLog obs pe) : p.2 = pe.event.seq := by
  unfold noticeLog at h
  rcases List.mem_map.mp h with ⟨i, _, rfl⟩
  rfl

theorem reemitGo_spec (evs : List PendingEvent) :
    ∀ fs : FrameworkState σ,
    (∀ pe ∈ evs, (lookupStore (eventPath pe.event) fs.store).isSome = true) →
    (evs.map fun pe => eventPath pe.event).Nodup →
    ∃ fs', reemitGo evs fs = .ok (fs',
        (evs.filter fun pe =>
            decide ((pe.event.parentPath, pe.event.kind) ∈ fs.registry)).flatMap
          (noticeLog fs.observers)) ∧
      fs'.observers = fs.observers ∧ fs'.registry = fs.registry ∧
      fs'.seqCounter = fs.seqCounter := by
  induction evs with
  | nil =>
    intro fs _ _
    exact ⟨fs, rfl, rfl, rfl, rfl⟩
  | cons pe rest ih =>
    intro fs hsnap hnodup
    obtain ⟨v, hv⟩ := Option.isSome_iff_exists.mp (hsnap pe (by simp))
    have hpath : ∀ q ∈ rest, eventPath q.event ≠ eventPath pe.event := by
      intro q hq heq
      simp only [List.map_cons, List.nodup_cons] at hnodup
      exact hnodup.1 (heq ▸ List.mem_map_of_mem (fun x => eventPath x.event) hq)
    have hnodup' : (rest.map fun q => eventPath q.event).Nodup := by
      simp only [List.map_cons, List.nodup_cons] at hnodup
      exact hnodup.2
    by_cases hreg : (pe.event.parentPath, pe.event.kind) ∈ fs.registry
    · have hload : loadSnapshot fs pe.event.parentPath pe.event.kind
          (eventPath pe.event) = .ok v := by
        simp only [loadSnapshot, hv, if_pos hreg]
      have hsnap' : ∀ q ∈ rest,
          (lookupStore (eventPath q.event) (redispatch fs pe).1.store).isSome = true := by
        intro q hq
        rw [redispatch_store_other fs pe _ (hpath q hq)]
        exact hsnap q (List.mem_cons_of_mem pe hq)
      obtain ⟨fs', hgo, hobs, hreg', hseq⟩ := ih (redispatch fs pe).1 hsnap' hnodup'
      refine ⟨fs', ?_, ?_, ?_, ?_⟩
      · unfold reemitGo
        rw [hload]
        dsimp only
        rw [hgo]
        dsimp only
        rw [redispatch_log, redispatch_registry, redispatch_observers]
        simp [List.filter_cons, hreg]
      · rw [hobs, redispatch_observers]
      · rw [hreg', redispatch_registry]
      · rw [hseq, redispatch_seqCounter]
    · have hload : loadSnapshot fs pe.event.parentPath pe.event.kind
          (eventPath pe.event) = .error (.noType pe.event.parentPath pe.event.kind) := by
        simp only [loadSnapshot, hv, if_neg hreg]
      have hsnap' : ∀ q ∈ rest,
          (lookupStore (eventPath q.event)
            (List.filter (fun pv => decide (pv.1 ≠ eventPath pe.event)) fs.store)).isSome
              = true := by
        intro q hq
        rw [lookupStore_filter_ne _ _ fs.store (hpath q hq)]
        exact hsnap q (List.mem_cons_of_mem pe hq)
      obtain ⟨fs', hgo, hobs, hreg', hseq⟩ := ih
        { fs with
          store := fs.store.filter fun pv => decide (pv.1 ≠ eventPath pe.event)
          pending := fs.pending.filter fun q => decide (q.event.seq ≠ pe.event.seq) }
        hsnap' hnodup'
      refine ⟨fs', ?_, ?_, ?_, ?_⟩
      · unfold reemitGo
        rw [hload]
        dsimp only
        rw [hgo]
        simp [List.filter_cons, hreg]
      · exact hobs
      · exact hreg'
      · exact hseq

theorem reemit_spec (fs : FrameworkState σ)
    (hsnap : ∀ pe ∈ fs.pending, (lookupStore (eventPath pe.event) fs.store).isSome = true)
    (hnodup : (fs.pending.map fun pe => eventPath pe.event).Nodup) :
    ∃ fs', reemit fs = .ok (fs', reemitLog fs) ∧
      fs'.observers = fs.observers ∧ fs'.registry = fs.registry ∧
      fs'.seqCounter = fs.seqCounter := by
  have hperm : (List.insertionSort seqLE fs.pending).Perm fs.pending :=
    List.perm_insertionSort seqLE fs.pending
  have hsnap' : ∀ pe ∈ List.insertionSort seqLE fs.pending,
      (lookupStore (eventPath pe.event) fs.store).isSome = true :=
    fun pe hpe => hsnap pe (hperm.mem_iff.mp hpe)
  have hnodup' : ((List.insertionSort seqLE fs.pending).map
      fun pe => eventPath pe.event).Nodup :=
    ((hperm.map fun pe => eventPath pe.event).nodup_iff).mpr hnodup
  exact reemitGo_spec _ fs hsnap' hnodup'

theorem sorted_of_const {l : List Nat} {c : Nat} (h : ∀ x ∈ l, x = c) :
    List.Sorted (· ≤ ·) l := by
  induction l with
  | nil => exact List.sorted_nil
  | cons x xs ih =>
    rw [List.sorted_cons]
    refine ⟨fun b hb => ?_, ih fun y hy => h y (List.mem_cons_of_mem x hy)⟩
    rw [h x (by simp), h b (List.mem_cons_of_mem x hb)]

theorem reemitGo_log_mem (evs : List PendingEvent) :
    ∀ (fs fs' : FrameworkState σ) (log : List (Nat × Nat)),
    reemitGo evs fs = .ok (fs', log) →
    ∀ p ∈ log, ∃ q ∈ evs, p.2 = q.event.seq := by
  induction evs with
  | nil =>
    intro fs fs' log h p hp
    simp only [reemitGo, Except.ok.injEq, Prod.mk.injEq] at h
    rw [← h.2] at hp
    exact absurd hp (List.not_mem_nil p)
  | cons pe rest ih =>
    intro fs fs' log h p hp
    unfold reemitGo at h
    rcases hload : loadSnapshot fs pe.event.parentPath pe.event.kind (eventPath pe.event)
      with err | v
    · rcases herr : err with hpath | htype
      · rw [hload, herr] at h
        exact absurd h (by simp)
      · rw [hload, herr] at h
        obtain ⟨q, hq, hpq⟩ := ih _ fs' log h p hp
        exact ⟨q, List.mem_cons_of_mem pe hq, hpq⟩
    · rw [hload] at h
      dsimp only at h
      rcases hgo : reemitGo rest (redispatch fs pe).1 with err2 | r2
      · rw [hgo] at h
        exact absurd h (by simp)
      · obtain ⟨fs2, log2⟩ := r2
        rw [hgo] at h
        simp only [Except.ok.injEq, Prod.mk.injEq] at h
        rw [← h.2] at hp
        rcases List.mem_append.mp hp with hmem | hmem
        · rw [redispatch_log] at hmem
          exact ⟨pe, by simp, noticeLog_snd hmem⟩
        · obtain ⟨q, hq, hpq⟩ := ih _ fs2 log2 hgo p hmem
          exact ⟨q, List.mem_cons_of_mem pe hq, hpq⟩

theorem reemitGo_log_sorted (evs : List PendingEvent) :
    ∀ (fs fs' : FrameworkState σ) (log : List (Nat × Nat)),
    List.Sorted seqLE evs →
    reemitGo evs fs = .ok (fs', log) →
    List.Sorted (· ≤ ·) (log.map Prod.snd) := by
  induction evs with
  | nil =>
    intro fs fs' log _ h
    simp only [reemitGo, Except.ok.injEq, Prod.mk.injEq] at h
    rw [← h.2]
    exact List.sorted_nil
  | cons pe rest ih =>
    intro fs fs' log hsort h
    rw [List.sorted_cons] at hsort
    unfold reemitGo at h
    rcases hload : loadSnapshot fs pe.event.parentPath pe.event.kind (eventPath pe.event)
      with err | v
    · rcases herr : err with hpath | htype
      · rw [hload, herr] at h
        exact absurd h (by simp)
      · rw [hload, herr] at h
        exact ih _ fs' log hsort.2 h
    · rw [hload] at h
      dsimp only at h
      rcases hgo : reemitGo rest (redispatch fs pe).1 with err2 | r2
      · rw [hgo] at h
        exact absurd h (by simp)
      · obtain ⟨fs2, log2⟩ := r2
        rw [hgo] at h
        simp only [Except.ok.injEq, Prod.mk.injEq] at h
        rw [← h.2, List.map_append]
        rw [List.Sorted, List.pairwise_append]
        refine ⟨?_, ?_, ?_⟩
        · apply sorted_of_const
          intro x hx
          rcases List.mem_map.mp hx with ⟨p, hp, rfl⟩
          rw [redispatch_log] at hp
          exact noticeLog_snd hp
        · exact ih _ fs2 log2 hsort.2 hgo
        · intro a ha b hb
          rcases List.mem_map.mp ha with ⟨p, hp, rfl⟩
          rcases List.mem_map.mp hb with ⟨p2, hp2, rfl⟩
          rw [redispatch_log] at hp
          rw [noticeLog_snd hp]
          obtain ⟨q, hq, hpq⟩ := reemitGo_log_mem rest _ fs2 log2 hgo p2 hp2
          rw [hpq]
          exact hsort.1 q hq

/-! ## Claim C1: which observers does a reemit pass invoke? -/

/-- An observer that never calls `defer()`; its world state counts its
invocations. -/
def obsNever (i : Nat) (pp kind : List Char) : Observer Nat :=
  ⟨i, pp, kind, fun s _ => (s + 1, false)⟩

/-- An observer that always calls `defer()`. -/
def obsAlways (i : Nat) (pp kind : List Char) : Observer Nat :=
  ⟨i, pp, kind, fun s _ => (s + 1, true)⟩

/-- The publisher path used by the concrete dispatch scenarios. -/
def cexPub : List Char := ['p']

/-- The event kind used by the concrete dispatch scenarios. -/
def cexKind : List Char := ['a']

/-- A framework with two observers registered for the same (parent, kind):
observer 0 never defers, observer 1 always defers. -/
def cexFs0 : FrameworkState Nat :=
  { store := [], registry := [(cexPub, cexKind)],
    observers := [obsNever 0 cexPub cexKind, obsAlways 1 cexPub cexKind],
    pending := [], seqCounter := 0, obsState := 0 }

/-- The framework after emitting one event: both observers were invoked,
only observer 1 deferred, so the event is PENDING with a single live
notice. -/
def cexFs1 : FrameworkState Nat := (emit cexFs0 cexPub cexKind []).1

/-- The invocation log of the `reemit` call that redelivers the pending
event of `cexFs1`. -/
def cexLog : List (Nat × Nat) :=
  match reemit cexFs1 with
  | .ok r => r.2
  | .error _ => []

/-- C1 (as stated) fails: after the emit, the event with sequence number 1
is PENDING and both observers 0 and 1 are registered for its
(parent, kind), but the dispatch pass performed by `reemit` invokes only
observer 1 — the observer that deferred during the previous pass — and not
observer 0.  This per-notice redelivery is exactly what the in-tree test
`TestFramework.test_defer_and_reemit` asserts (obs1 sees "a b a b a b b b",
not one "a" per reemit call). -/
theorem reemit_all_observers_counterexample :
    cexFs1.pending.map (fun pe => (pe.event.seq, pe.obsIds)) = [(1, [1])] ∧
    (matchingObservers cexFs1.observers ⟨cexPub, cexKind, 1, []⟩).map
      (fun o => o.id) = [0, 1] ∧
    cexLog = [(1, 1)] ∧ (0, 1) ∉ cexLog := by
  decide

/-- C1 (amended): for every event that is PENDING when `reemit()` runs,
the dispatch pass performed by reemit invokes exactly the observers
holding a live deferral notice for that event — those that called
`defer()` during the event's previous dispatch pass — in notice order; the
Framework does keep per-observer deferral state (one notice per deferring
observer), so an observer that did not defer is not re-invoked on the next
pass.  `reemitLog` is that characterization. -/
theorem reemit_invokes_notice_holders {σ : Type} (fs : FrameworkState σ)
    (hsnap : ∀ pe ∈ fs.pending,
      (lookupStore (eventPath pe.event) fs.store).isSome = true)
    (hnodup : (fs.pending.map fun pe => eventPath pe.event).Nodup) :
    ∃ fs', reemit fs = .ok (fs', reemitLog fs) := by
  obtain ⟨fs', h, _⟩ := reemit_spec fs hsnap hnodup
  exact ⟨fs', h⟩

/-- C1 witness: the amended theorem applied to the concrete pending state
`cexFs1`. -/
theorem reemit_invokes_notice_holders_witness :
    (∀ pe ∈ cexFs1.pending,
      (lookupStore (eventPath pe.event) cexFs1.store).isSome = true) ∧
    (cexFs1.pending.map fun pe => eventPath pe.event).Nodup ∧
    ∃ fs', reemit cexFs1 = .ok (fs', reemitLog cexFs1) :=
  ⟨by decide, by decide, reemit_invokes_notice_holders cexFs1 (by decide) (by decide)⟩

/-! ## Model validation: the `test_defer_and_reemit` trace -/

/-- Observer world state for the trace of
`TestFramework.test_defer_and_reemit`: the two observers' `seen` lists and
`done` maps (kinds no longer deferred). -/
abbrev TraceSt := (List (List Char) × List (List Char) × List (List Char) × List (List Char))

/-- One of the test's two observers: appends each seen kind to its `seen`
list and defers until the kind appears in its `done` map, exactly like
`MyObserver.on_any` in the test. -/
def traceObs (i : Nat) (isFirst : Bool) (pp kind : List Char) : Observer TraceSt :=
  ⟨i, pp, kind, fun s e =>
    if isFirst then
      ((s.1 ++ [e.kind], s.2.1, s.2.2.1, s.2.2.2), !(s.2.2.1.contains e.kind))
    else
      ((s.1, s.2.1 ++ [e.kind], s.2.2.1, s.2.2.2), !(s.2.2.2.contains e.kind))⟩

/-- Publisher path of `MyNotifier1` in the test. -/
def tracePub1 : List Char := ['p', '1']

/-- Publisher path of `MyNotifier2` in the test. -/
def tracePub2 : List Char := ['p', '2']

/-- The test's framework: obs1 observes kinds a and b, obs2 observes a, b
and c, in the test's registration order. -/
def traceFs0 : FrameworkState TraceSt :=
  { store := []
    registry := [(tracePub1, ['a']), (tracePub1, ['b']), (tracePub2, ['c'])]
    observers := [traceObs 0 true tracePub1 ['a'], traceObs 1 true tracePub1 ['b'],
                  traceObs 2 false tracePub1 ['a'], traceObs 3 false tracePub1 ['b'],
                  traceObs 4 false tracePub2 ['c']]
    pending := [], seqCounter := 0, obsState := ([], [], [], []) }

/-- Update the two observers' `done` maps between reemit calls, as the test
does with `obs1.done[...] = True`. -/
def traceSetDone (fs : FrameworkState TraceSt) (d1 d2 : List (List Char)) :
    FrameworkState TraceSt :=
  { fs with obsState := (fs.obsState.1, fs.obsState.2.1, d1, d2) }

/-- Run one `reemit`, keeping the state (the test's reemits never fail). -/
def traceReemit (fs : FrameworkState TraceSt) : FrameworkState TraceSt :=
  match reemit fs with
  | .ok r => r.1
  | .error _ => fs

/-- The full execution of `test_defer_and_reemit`: three emits, then the
test's seven reemit calls with the `done` updates between them. -/
def traceFinal : FrameworkState TraceSt :=
  let f0 := (emit (emit (emit traceFs0 tracePub1 ['a'] []).1 tracePub1 ['b'] []).1
    tracePub2 ['c'] []).1
  let f1 := traceReemit f0
  let f2 := traceSetDone f1 [['a']] [['b']]
  let f3 := traceReemit (traceReemit f2)
  let f4 := traceSetDone f3 [['a'], ['b']] [['b'], ['a']]
  let f5 := traceReemit f4
  let f6 := traceSetDone f5 [['a'], ['b']] [['b'], ['a'], ['c']]
  traceReemit (traceReemit (traceReemit f6))

/-- The model reproduces `TestFramework.test_defer_and_reemit` exactly:
obs1 sees "a b a b a b b b", obs2 sees "a b c a b c a b c a c a c c", and
afterwards every event snapshot is gone from storage.  This anchors the
per-notice redelivery model to the in-tree test. -/
theorem defer_and_reemit_test_trace :
    traceFinal.obsState.1 =
      [['a'], ['b'], ['a'], ['b'], ['a'], ['b'], ['b'], ['b']] ∧
    traceFinal.obsState.2.1 =
      [['a'], ['b'], ['c'], ['a'], ['b'], ['c'], ['a'], ['b'], ['c'],
       ['a'], ['c'], ['a'], ['c'], ['c']] ∧
    traceFinal.store = [] ∧ traceFinal.pending = [] := by
  decide

/-! ## Claim C4: deferral keeps the snapshot, DROPPED deletes it -/

/-- The ids of the observers that call `defer()` during the initial
dispatch pass performed by `emit`. -/
def emitDeferIds (fs : FrameworkState σ) (parentPath kind : List Char)
    (payload : Payload) : List Nat :=
  (runEmitPass (emittedEvent fs parentPath kind payload)
    (matchingObservers fs.observers (emittedEvent fs parentPath kind payload))
    fs.obsState).2.1

/-- The ids of the observers that call `defer()` during a redelivery pass
of `reemit` over a pending event. -/
def noticeDeferIds (fs : FrameworkState σ) (pe : PendingEvent) : List Nat :=
  (runNoticePass pe.event fs.observers pe.obsIds fs.obsState).2.1

/-- C4: for every emitted event and every dispatch pass over it — the
initial pass of `emit` and every redelivery pass of `reemit` — if at least
one observer called `defer()` during the pass, the event's snapshot
remains loadable from the store afterwards; after the first pass in which
no observer deferred, loading the event's handle fails with the
missing-snapshot error (DROPPED is terminal: the snapshot is deleted from
the store). -/
theorem defer_keeps_snapshot_dropped_deletes {σ : Type} (fs : FrameworkState σ)
    (parentPath kind : List Char) (payload : Payload) (pe : PendingEvent)
    (v : Payload)
    (hsnap : lookupStore (eventPath pe.event) fs.store = some v) :
    ((emitDeferIds fs parentPath kind payload ≠ [] →
        lookupStore (eventPath (emittedEvent fs parentPath kind payload))
          (emit fs parentPath kind payload).1.store = some payload) ∧
      (emitDeferIds fs parentPath kind payload = [] →
        loadSnapshot (emit fs parentPath kind payload).1 parentPath kind
            (eventPath (emittedEvent fs parentPath kind payload)) =
          .error (.noSnapshot
            (eventPath (emittedEvent fs parentPath kind payload))))) ∧
    ((noticeDeferIds fs pe ≠ [] →
        lookupStore (eventPath pe.event) (redispatch fs pe).1.store = some v) ∧
      (noticeDeferIds fs pe = [] →
        loadSnapshot (redispatch fs pe).1 pe.event.parentPath pe.event.kind
            (eventPath pe.event) =
          .error (.noSnapshot (eventPath pe.event)))) := by
  unfold emitDeferIds noticeDeferIds
  refine ⟨⟨?_, ?_⟩, ?_, ?_⟩
  · intro hne
    unfold emit
    dsimp only
    rw [if_neg hne]
    simp [lookupStore]
  · intro heq
    unfold emit
    dsimp only
    rw [if_pos heq]
    unfold loadSnapshot
    dsimp only
    rw [lookupStore_filter_self]
  · intro hne
    unfold redispatch
    dsimp only
    rw [if_neg hne]
    exact hsnap
  · intro heq
    unfold redispatch
    dsimp only
    rw [if_pos heq]
    unfold loadSnapshot
    dsimp only
    rw [lookupStore_filter_self]

/-- C4 witness: the theorem applied to the concrete pending state
`cexFs1`, whose event 1 has its snapshot in the store. -/
theorem defer_keeps_snapshot_witness :
    lookupStore (eventPath (⟨cexPub, cexKind, 1, []⟩ : EventRecord)) cexFs1.store =
      some [] ∧
    ((emitDeferIds cexFs1 cexPub cexKind [] ≠ [] →
        lookupStore (eventPath (emittedEvent cexFs1 cexPub cexKind []))
          (emit cexFs1 cexPub cexKind []).1.store = some []) ∧
      (emitDeferIds cexFs1 cexPub cexKind [] = [] →
        loadSnapshot (emit cexFs1 cexPub cexKind []).1 cexPub cexKind
            (eventPath (emittedEvent cexFs1 cexPub cexKind [])) =
          .error (.noSnapshot (eventPath (emittedEvent cexFs1 cexPub cexKind []))))) ∧
    ((noticeDeferIds cexFs1 ⟨⟨cexPub, cexKind, 1, []⟩, [1]⟩ ≠ [] →
        lookupStore (eventPath (⟨cexPub, cexKind, 1, []⟩ : EventRecord))
          (redispatch cexFs1 ⟨⟨cexPub, cexKind, 1, []⟩, [1]⟩).1.store = some []) ∧
      (noticeDeferIds cexFs1 ⟨⟨cexPub, cexKind, 1, []⟩, [1]⟩ = [] →
        loadSnapshot (redispatch cexFs1 ⟨⟨cexPub, cexKind, 1, []⟩, [1]⟩).1 cexPub
            cexKind (eventPath (⟨cexPub, cexKind, 1, []⟩ : EventRecord)) =
          .error (.noSnapshot (eventPath (⟨cexPub, cexKind, 1, []⟩ : EventRecord))))) :=
  ⟨by decide,
    defer_keeps_snapshot_dropped_deletes cexFs1 cexPub cexKind []
      ⟨⟨cexPub, cexKind, 1, []⟩, [1]⟩ [] (by decide)⟩

/-! ## Claim C5: sequence assignment and redelivery order -/

/-- C5: every emitted event receives the next value of the global sequence
counter — strictly greater than every previously assigned number,
independent of which publisher or kind produced it — that number is the
key under which its snapshot is stored, and `reemit` redelivers pending
events in ascending sequence order: the sequence numbers along the reemit
invocation log are monotonically nondecreasing, so no delivery of a
higher-numbered event precedes a delivery of a lower-numbered one. -/
theorem seq_assignment_and_reemit_order {σ : Type} (fs : FrameworkState σ)
    (parentPath kind : List Char) (payload : Payload)
    (fs' : FrameworkState σ) (log : List (Nat × Nat))
    (hre : reemit fs = .ok (fs', log)) :
    (emittedEvent fs parentPath kind payload).seq = fs.seqCounter + 1 ∧
    (emit fs parentPath kind payload).1.seqCounter = fs.seqCounter + 1 ∧
    eventPath (emittedEvent fs parentPath kind payload) =
      parentPath ++ '/' :: (kind ++ '[' :: (natChars (fs.seqCounter + 1) ++ [']'])) ∧
    List.Sorted (· ≤ ·) (log.map Prod.snd) := by
  refine ⟨rfl, ?_, rfl, ?_⟩
  · unfold emit
    dsimp only
    split <;> rfl
  · unfold reemit at hre
    exact reemitGo_log_sorted _ fs fs' log
      (List.sorted_insertionSort seqLE fs.pending) hre

/-- C5 witness: the theorem applied to the concrete framework `cexFs0`
(whose `reemit` is the empty redelivery). -/
theorem seq_assignment_witness :
    reemit cexFs0 = .ok (cexFs0, []) ∧
    (emittedEvent cexFs0 cexPub cexKind []).seq = cexFs0.seqCounter + 1 ∧
    (emit cexFs0 cexPub cexKind []).1.seqCounter = cexFs0.seqCounter + 1 ∧
    eventPath (emittedEvent cexFs0 cexPub cexKind []) =
      cexPub ++ '/' :: (cexKind ++ '[' ::
        (natChars (cexFs0.seqCounter + 1) ++ [']'])) ∧
    List.Sorted (· ≤ ·) (([] : List (Nat × Nat)).map Prod.snd) :=
  ⟨rfl, seq_assignment_and_reemit_order cexFs0 cexPub cexKind [] cexFs0 [] rfl⟩

/-! ## Claim C7: unknown types skipped by reemit; missing snapshot on load -/

/-- C7: when the store contains a pending event snapshot whose type is not
known to the registry, `reemit` raises no error and silently skips that
event — the invocation log contains no delivery of it; by contrast,
directly calling `load_snapshot` on a handle for which the store holds no
snapshot raises the distinct missing-snapshot error carrying that handle's
path. -/
theorem reemit_skips_unknown_type {σ : Type} (fs : FrameworkState σ)
    (hsnap : ∀ pe ∈ fs.pending,
      (lookupStore (eventPath pe.event) fs.store).isSome = true)
    (hnodup : (fs.pending.map fun pe => eventPath pe.event).Nodup)
    (hseq : (fs.pending.map fun pe => pe.event.seq).Nodup) :
    (∃ fs', reemit fs = .ok (fs', reemitLog fs) ∧
      ∀ pe ∈ fs.pending, (pe.event.parentPath, pe.event.kind) ∉ fs.registry →
        ∀ p ∈ reemitLog fs, p.2 ≠ pe.event.seq) ∧
    (∀ parentPath kind path, lookupStore path fs.store = none →
      loadSnapshot fs parentPath kind path = .error (.noSnapshot path)) := by
  constructor
  · obtain ⟨fs', h, _⟩ := reemit_spec fs hsnap hnodup
    refine ⟨fs', h, ?_⟩
    intro pe hpe hreg p hp hpseq
    rcases List.mem_flatMap.mp hp with ⟨q, hq, hpq⟩
    have hq2 : q ∈ List.insertionSort seqLE fs.pending := (List.mem_filter.mp hq).1
    have hqreg : (q.event.parentPath, q.event.kind) ∈ fs.registry := by
      have hfil := (List.mem_filter.mp hq).2
      simpa using hfil
    have hqmem : q ∈ fs.pending :=
      (List.perm_insertionSort seqLE fs.pending).mem_iff.mp hq2
    have hqseq : q.event.seq = pe.event.seq := by
      rw [← noticeLog_snd hpq]
      exact hpseq
    have hqpe : q = pe := List.inj_on_of_nodup_map hseq hqmem hpe hqseq
    rw [hqpe] at hqreg
    exact hreg hqreg
  · intro pp kind path h
    unfold loadSnapshot
    rw [h]

/-- Concrete state for the C7 witness: one pending event whose snapshot is
stored but whose (parent, kind) is not in the registry. -/
def c7Fs : FrameworkState Nat :=
  { store := [(eventPath ⟨cexPub, cexKind, 1, []⟩, [])]
    registry := []
    observers := []
    pending := [⟨⟨cexPub, cexKind, 1, []⟩, [0]⟩]
    seqCounter := 1, obsState := 0 }

/-- C7 witness: the theorem applied to `c7Fs`. -/
theorem reemit_skips_unknown_type_witness :
    (∀ pe ∈ c7Fs.pending,
      (lookupStore (eventPath pe.event) c7Fs.store).isSome = true) ∧
    ((∃ fs', reemit c7Fs = .ok (fs', reemitLog c7Fs) ∧
      ∀ pe ∈ c7Fs.pending, (pe.event.parentPath, pe.event.kind) ∉ c7Fs.registry →
        ∀ p ∈ reemitLog c7Fs, p.2 ≠ pe.event.seq) ∧
    (∀ parentPath kind path, lookupStore path c7Fs.store = none →
      loadSnapshot c7Fs parentPath kind path = .error (.noSnapshot path))) :=
  ⟨by decide, reemit_skips_unknown_type c7Fs (by decide) (by decide) (by decide)⟩

/-! ## StoredState persistence and two-phase commit (C2, C3) -/

/-- A StoredState attribute namespace: attribute name ↦ value (values are
modelled abstractly as character strings; the container grammar is treated
separately with the set wrappers). -/
abbrev StateMap := List (List Char × List Char)

/-- The durable storage contents: one StoredState record per owning Object
handle path (spec §3, §6). -/
abbrev Disk := List (List Char × StateMap)

/-- Association-list lookup. -/
def alookup (k : List Char) : List (List Char × α) → Option α
  | [] => none
  | pv :: rest => if pv.1 = k then some pv.2 else alookup k rest

/-- Read attribute `name` of the namespace stored at `path` in disk-shaped
contents; `none` is the missing-attribute condition. -/
def stateRead (d : Disk) (path name : List Char) : Option (List Char) :=
  match alookup path d with
  | none => none
  | some m => alookup name m

/-- Overwrite one attribute in a namespace. -/
def setMap (m : StateMap) (name val : List Char) : StateMap :=
  (name, val) :: m.filter fun av => decide (av.1 ≠ name)

/-- Overwrite one attribute of the namespace at `path`. -/
def setState (d : Disk) (path name val : List Char) : Disk :=
  (path, setMap (match alookup path d with | none => [] | some m => m) name val)
    :: d.filter fun pm => decide (pm.1 ≠ path)

/-- Modelled from the spec: one process session over the snapshot storage —
the durable disk contents and the in-memory StoredState representation
(spec §3, §4.4); `juju/framework.py` is missing from the tree. -/
structure Session where
  disk : Disk
  mem : Disk

/-- Modelled from the spec: opening a fresh Framework over a storage
location — StoredState bindings recover the persisted contents (spec
§4.4). -/
def openSession (d : Disk) : Session := ⟨d, d⟩

/-- Modelled from the spec: `close` — only the durable contents survive the
session; in-memory changes not flushed by a commit are discarded (spec
§4.3, §4.4). -/
def closeSession (s : Session) : Disk := s.disk

/-- Modelled from the spec: assigning a StoredState attribute updates the
in-memory namespace of the owning handle; it becomes durable only at the
next commit's flush (spec §4.3, §4.4). -/
def setAttr (s : Session) (path name val : List Char) : Session :=
  { s with mem := setState s.mem path name val }

/-- Read a StoredState attribute of the current session. -/
def getAttr (s : Session) (path name : List Char) : Option (List Char) :=
  stateRead s.mem path name

/-- One attribute assignment: (object handle path, attribute, value). -/
abbrev Mutation := List Char × List Char × List Char

/-- Apply a sequence of StoredState assignments to a session. -/
def applyMuts (s : Session) : List Mutation → Session
  | [] => s
  | m :: rest => applyMuts (setAttr s m.1 m.2.1 m.2.2) rest

/-- Modelled from the spec: two-phase `commit` — phase 1 emits the
pre-commit event and fully drains it; its handlers may still mutate
StoredState (modelled as the aggregate in-memory mutation `preH`).
Immediately after phase 1 settles, all StoredState namespaces are flushed
to stable storage.  Phase 2 emits the commit event once; its handlers'
mutations (`comH`) reach only the in-memory representation and are never
persisted (spec §4.3). -/
def commitTwoPhase (preH comH : Disk → Disk) (s : Session) : Session :=
  ⟨preH s.mem, comH (preH s.mem)⟩

theorem applyMuts_disk (ms : List Mutation) :
    ∀ s : Session, (applyMuts s ms).disk = s.disk := by
  induction ms with
  | nil => intro s; rfl
  | cons m rest ih => intro s; exact ih (setAttr s m.1 m.2.1 m.2.2)

/-- C2: reattachment — a fresh Framework opened on the same storage
recovers, at every Object handle path and attribute, exactly the
StoredState contents as of the previous session's last successful commit
(the state flushed after that commit's pre-commit phase); any mutations
made after that commit in a session that was closed without committing do
not appear, whatever they were. -/
theorem reattachment_recovers_committed (preH comH : Disk → Disk) (d : Disk)
    (muts1 muts2 : List Mutation) (path name : List Char) :
    getAttr (openSession (closeSession (applyMuts
        (commitTwoPhase preH comH (applyMuts (openSession d) muts1)) muts2)))
      path name =
    stateRead (preH (applyMuts (openSession d) muts1).mem) path name := by
  unfold getAttr openSession closeSession
  rw [applyMuts_disk muts2]
  rfl

/-- C3: commit asymmetry — after `commit`, the current session's in-memory
state reflects the phase-2 (commit-event) handler mutations, but the
durable state reopened by a fresh Framework holds exactly the state at the
end of phase 1 (pre-commit handler mutations included); an attribute
absent at the flush point — even one first created by a commit-phase
handler — is absent after restart. -/
theorem commit_phase_asymmetry (preH comH : Disk → Disk) (s : Session)
    (path name : List Char) :
    (commitTwoPhase preH comH s).mem = comH (preH s.mem) ∧
    getAttr (openSession (closeSession (commitTwoPhase preH comH s))) path name =
      stateRead (preH s.mem) path name ∧
    (stateRead (preH s.mem) path name = none →
      getAttr (openSession (closeSession (commitTwoPhase preH comH s))) path name =
        none) := by
  exact ⟨rfl, rfl, fun h => h⟩

/-- Handle path of the observer object in the C3 witness (mirrors
`PreCommitObserver` in `test_on_pre_commit_emitted`). -/
def c3path : List Char := ['o', 'b', 'j']

/-- The attribute the pre-commit handler sets. -/
def c3name : List Char := ['m', 'y', 'd', 'a', 't', 'a']

/-- The attribute only the commit handler sets. -/
def c3other : List Char := ['m', 'y', 'o', 't', 'h', 'e', 'r']

/-- Pre-commit handler of the witness: sets mydata = 42. -/
def c3pre : Disk → Disk := fun d => setState d c3path c3name ['4', '2']

/-- Commit handler of the witness: sets myotherdata = 43. -/
def c3com : Disk → Disk := fun d => setState d c3path c3other ['4', '3']

/-- C3 witness: the theorem applied at a concrete commit, showing the
attribute created only by the commit-phase handler is absent after
restart (while the session saw it in memory). -/
theorem commit_phase_asymmetry_witness :
    stateRead (c3pre (openSession ([] : Disk)).mem) c3path c3other = none ∧
    getAttr (openSession (closeSession (commitTwoPhase c3pre c3com
      (openSession [])))) c3path c3other = none ∧
    stateRead (commitTwoPhase c3pre c3com (openSession [])).mem c3path c3other =
      some ['4', '3'] ∧
    getAttr (openSession (closeSession (commitTwoPhase c3pre c3com
      (openSession [])))) c3path c3name = some ['4', '2'] :=
  ⟨by decide,
    (commit_phase_asymmetry c3pre c3com (openSession []) c3path c3other).2.2
      (by decide),
    by decide, by decide⟩

/-! ## StoredSet wrapper set operations (C8) -/

/-- A plain Python set object: an allocation identity plus its elements
(elements modelled as character strings). -/
structure PySet where
  objId : Nat
  elems : Finset (List Char)
deriving DecidableEq

/-- Modelled from the spec: a set-like StoredState wrapper, holding a
reference to its underlying tracked set (spec §4.4); `juju/framework.py`
is missing from the tree. -/
structure StoredSet where
  underId : Nat
  under : Finset (List Char)
deriving DecidableEq

/-- The four binary set operations of spec §4.4(d). -/
inductive SetOp where
  | union
  | sdiff
  | inter
  | symmDiff
deriving DecidableEq, Repr

/-- The built-in Python set operation each `SetOp` denotes. -/
def SetOp.apply : SetOp → Finset (List Char) → Finset (List Char) → Finset (List Char)
  | .union, a, b => a ∪ b
  | .sdiff, a, b => a \ b
  | .inter, a, b => a ∩ b
  | .symmDiff, a, b => (a \ b) ∪ (b \ a)

/-- Modelled from the spec: a binary set operation between a set-like
wrapper and a plain set, in either operand order (`order = true` puts the
wrapper on the left) — it builds a new plain, unwrapped set under a fresh
object id holding the built-in operation's result, and returns both
operands unchanged (spec §4.4(d)). -/
def StoredSet.binop (nextId : Nat) (op : SetOp) (w : StoredSet) (p : PySet)
    (order : Bool) : PySet × StoredSet × PySet :=
  if order then (⟨nextId, op.apply w.under p.elems⟩, w, p)
  else (⟨nextId, op.apply p.elems w.under⟩, w, p)

/-- A candidate set element: a scalar string, or itself a set-like value
(which Python cannot hash). -/
inductive PyVal where
  | scalar (s : List Char)
  | setLike (s : Finset (List Char))

/-- The unsupported-operation failure raised on inserting an unhashable
value into a set. -/
inductive TypeErr where
  | unhashable
deriving DecidableEq

/-- Modelled from the spec: `add` on a set-like wrapper — inserting another
set-like value fails (set elements must be hashable); a scalar is inserted
into the underlying set (spec §4.4(d)). -/
def StoredSet.add (w : StoredSet) (v : PyVal) : Except TypeErr StoredSet :=
  match v with
  | .setLike _ => .error .unhashable
  | .scalar s => .ok ⟨w.underId, insert s w.under⟩

/-- C8: every binary set operation between a set-like wrapper and a plain
set, applied in either operand order, returns a plain unwrapped set whose
contents equal the built-in operation's result on the operands' contents
in that order, allocated as a new object distinct from both operands and
from the wrapper's underlying set, and returns both operands with their
prior contents; and adding a set-like value as an element of a set-like
wrapper fails. -/
theorem storedset_ops_plain_fresh_pure (op : SetOp) (w : StoredSet) (p : PySet)
    (nextId : Nat) (order : Bool)
    (hfresh : nextId ≠ w.underId ∧ nextId ≠ p.objId) :
    (StoredSet.binop nextId op w p order).1.elems =
      (if order then op.apply w.under p.elems else op.apply p.elems w.under) ∧
    (StoredSet.binop nextId op w p order).1.objId ≠ w.underId ∧
    (StoredSet.binop nextId op w p order).1.objId ≠ p.objId ∧
    (StoredSet.binop nextId op w p order).2.1 = w ∧
    (StoredSet.binop nextId op w p order).2.2 = p ∧
    ∀ sv, StoredSet.add w (.setLike sv) = .error .unhashable := by
  unfold StoredSet.binop
  cases order with
  | false =>
    rw [if_neg (by simp), if_neg (by simp)]
    exact ⟨rfl, hfresh.1, hfresh.2, rfl, rfl, fun sv => rfl⟩
  | true =>
    rw [if_pos rfl, if_pos rfl]
    exact ⟨rfl, hfresh.1, hfresh.2, rfl, rfl, fun sv => rfl⟩

/-- C8 witness: the theorem applied to the spec's worked example — the
wrapper holds {"a","b"}, the plain operand is {"a","c","d"}, and the
symmetric difference yields the plain set {"b","c","d"} without touching
either operand. -/
theorem storedset_ops_witness :
    ((2 : Nat) ≠ 0 ∧ (2 : Nat) ≠ 1) ∧
    ((StoredSet.binop 2 .symmDiff ⟨0, {['a'], ['b']}⟩ ⟨1, {['a'], ['c'], ['d']}⟩
        true).1.elems =
      (if true then SetOp.apply .symmDiff {['a'], ['b']} {['a'], ['c'], ['d']}
        else SetOp.apply .symmDiff {['a'], ['c'], ['d']} {['a'], ['b']}) ∧
    (StoredSet.binop 2 .symmDiff ⟨0, {['a'], ['b']}⟩ ⟨1, {['a'], ['c'], ['d']}⟩
        true).1.objId ≠ 0 ∧
    (StoredSet.binop 2 .symmDiff ⟨0, {['a'], ['b']}⟩ ⟨1, {['a'], ['c'], ['d']}⟩
        true).1.objId ≠ 1 ∧
    (StoredSet.binop 2 .symmDiff ⟨0, {['a'], ['b']}⟩ ⟨1, {['a'], ['c'], ['d']}⟩
        true).2.1 = ⟨0, {['a'], ['b']}⟩ ∧
    (StoredSet.binop 2 .symmDiff ⟨0, {['a'], ['b']}⟩ ⟨1, {['a'], ['c'], ['d']}⟩
        true).2.2 = ⟨1, {['a'], ['c'], ['d']}⟩ ∧
    ∀ sv, StoredSet.add ⟨0, {['a'], ['b']}⟩ (.setLike sv) = .error .unhashable) ∧
    SetOp.apply .symmDiff {['a'], ['b']} {['a'], ['c'], ['d']} =
      ({['b'], ['c'], ['d']} : Finset (List Char)) :=
  ⟨⟨by decide, by decide⟩,
    storedset_ops_plain_fresh_pure .symmDiff ⟨0, {['a'], ['b']}⟩
      ⟨1, {['a'], ['c'], ['d']}⟩ 2 true ⟨by decide, by decide⟩,
    by decide⟩

/-! ## juju/main.py: the dispatch entry point (C9) -/

/-- Python `event_name.replace('-', '_')`
(src/lib/juju/main.py line 97). -/
def formatEventName (s : List Char) : List Char :=
  s.map fun c => if c = '-' then '_' else c

/-- The charm's declared bound events: the event-kind names reachable as
attributes of `charm.on`. -/
structure CharmOn where
  declared : List (List Char)

/-- A Python AttributeError as raised by `getattr`. -/
inductive PyErr where
  | attributeError
deriving DecidableEq

/-- The model of `getattr(charm.on, formatted_event_name)`: the bound event when
declared, otherwise an AttributeError (src/lib/juju/main.py
lines 99-102). -/
def getattrOn (charm : CharmOn) (name : List Char) : Except PyErr (List Char) :=
  if name ∈ charm.declared then .ok name else .error .attributeError

/-- The framework-relevant actions `main` performs, in order. -/
inductive MainAction where
  | reemitAction
  | emitAction (kind : List Char)
  | commitAction
  | closeAction
deriving DecidableEq, Repr

/-- The model of `_emit_charm_event` (src/lib/juju/main.py lines 91-109): formats the
Juju event name, resolves it on `charm.on` catching the AttributeError,
and emits the resolved event when there is one; an unresolved name emits
nothing and raises nothing. -/
def emitCharmEvent (charm : CharmOn) (eventName : List Char) : List MainAction :=
  match getattrOn charm (formatEventName eventName) with
  | .error .attributeError => []
  | .ok ev => [.emitAction ev]

/-- The model of `main` (src/lib/juju/main.py lines 129-174): after building the charm
it calls `framework.reemit()`, then `_emit_charm_event`, then
`framework.commit()`, then `framework.close()` in the `finally` block. -/
def mainActions (charm : CharmOn) (eventName : List Char) : List MainAction :=
  .reemitAction :: (emitCharmEvent charm eventName ++ [.commitAction, .closeAction])

/-- C9: `main` performs reemit first; when the name — with '-' replaced by
'_' — resolves to a declared event on the root charm object, it then emits
exactly that one event and then commits, in that order; when the name does
not resolve, the AttributeError is caught, no event is emitted and no
error escapes, and reemit and commit still run. -/
theorem main_dispatch_order (charm : CharmOn) (eventName : List Char) :
    (formatEventName eventName ∈ charm.declared →
      mainActions charm eventName =
        [.reemitAction, .emitAction (formatEventName eventName), .commitAction,
          .closeAction]) ∧
    (formatEventName eventName ∉ charm.declared →
      mainActions charm eventName =
        [.reemitAction, .commitAction, .closeAction]) := by
  constructor
  · intro h
    unfold mainActions emitCharmEvent getattrOn
    rw [if_pos h]
    rfl
  · intro h
    unfold mainActions emitCharmEvent getattrOn
    rw [if_neg h]
    rfl

/-- C9 witness: the theorem applied to a charm declaring only `install`,
dispatched once with the known name "install" and once with the unknown
name "db-relation-changed". -/
theorem main_dispatch_order_witness :
    (formatEventName ['i', 'n', 's', 't', 'a', 'l', 'l'] ∈
      (CharmOn.mk [['i', 'n', 's', 't', 'a', 'l', 'l']]).declared ∧
    mainActions (CharmOn.mk [['i', 'n', 's', 't', 'a', 'l', 'l']])
        ['i', 'n', 's', 't', 'a', 'l', 'l'] =
      [.reemitAction, .emitAction (formatEventName ['i', 'n', 's', 't', 'a', 'l', 'l']),
        .commitAction, .closeAction]) ∧
    (formatEventName ['d', 'b', '-', 'r', 'e', 'l'] ∉
      (CharmOn.mk [['i', 'n', 's', 't', 'a', 'l', 'l']]).declared ∧
    mainActions (CharmOn.mk [['i', 'n', 's', 't', 'a', 'l', 'l']])
        ['d', 'b', '-', 'r', 'e', 'l'] =
      [.reemitAction, .commitAction, .closeAction]) :=
  ⟨⟨by decide,
    (main_dispatch_order (CharmOn.mk [['i', 'n', 's', 't', 'a', 'l', 'l']])
      ['i', 'n', 's', 't', 'a', 'l', 'l']).1 (by decide)⟩,
   ⟨by decide,
    (main_dispatch_order (CharmOn.mk [['i', 'n', 's', 't', 'a', 'l', 'l']])
      ['d', 'b', '-', 'r', 'e', 'l']).2 (by decide)⟩⟩

/-! ## charm.py: unit id and peer identity (C10) -/

/-- The model of `KineCharm.get_unit_id` (src/lib/charm.py lines 86-89):
`(int(unit.name.split('/')[1]) % 9) + 1`; fails when the name has no
second '/'-segment or that segment is not a decimal numeral. -/
def get_unit_id (unitName : List Char) : Option Nat :=
  match (splitOnChar '/' unitName).get? 1 with
  | none => none
  | some numStr =>
    match digitsToNat numStr with
    | none => none
    | some n => some (n % 9 + 1)

/-- The model of `KineCharm.get_peer_identity` (src/lib/charm.py lines 91-93):
the formatted string id, colon, address, colon, 918 followed by id. -/
def get_peer_identity (unitName address : List Char) : Option (List Char) :=
  match get_unit_id unitName with
  | none => none
  | some i =>
    some (natChars i ++ ':' :: (address ++ ':' :: ('9' :: '1' :: '8' :: natChars i)))

theorem get_unit_id_eq (app : List Char) (N : Nat) (happ : '/' ∉ app) :
    get_unit_id (app ++ '/' :: natChars N) = some (N % 9 + 1) := by
  unfold get_unit_id
  rw [splitOnChar_append '/' app (natChars N) happ,
    splitOnChar_of_not_mem '/' (natChars N) (natChars_no_slash N)]
  show (match digitsToNat (natChars N) with
    | none => none
    | some n => some (n % 9 + 1)) = some (N % 9 + 1)
  rw [digitsToNat_natChars]

theorem get_peer_identity_eq (app : List Char) (N : Nat) (address : List Char)
    (happ : '/' ∉ app) :
    get_peer_identity (app ++ '/' :: natChars N) address =
      some (natChars (N % 9 + 1) ++ ':' :: (address ++ ':' ::
        ('9' :: '1' :: '8' :: natChars (N % 9 + 1)))) := by
  unfold get_peer_identity
  rw [get_unit_id_eq app N happ]

/-- C10: for every unit named `<app>/<N>` (`app` without '/', N a decimal
numeral), `get_unit_id` returns (N mod 9) + 1, an integer in 1..9;
`get_peer_identity(address)` returns `<id>:<address>:918<id>`, whose
trailing port numeral parses to 9180 + id, always within 9181..9189; and
any two units whose numbers are congruent modulo 9 produce identical peer
identities for the same address. -/
theorem unit_id_and_peer_identity (app : List Char) (N : Nat) (address : List Char)
    (happ : '/' ∉ app) :
    get_unit_id (app ++ '/' :: natChars N) = some (N % 9 + 1) ∧
    1 ≤ N % 9 + 1 ∧ N % 9 + 1 ≤ 9 ∧
    get_peer_identity (app ++ '/' :: natChars N) address =
      some (natChars (N % 9 + 1) ++ ':' :: (address ++ ':' ::
        ('9' :: '1' :: '8' :: natChars (N % 9 + 1)))) ∧
    digitsToNat ('9' :: '1' :: '8' :: natChars (N % 9 + 1)) =
      some (9180 + (N % 9 + 1)) ∧
    9181 ≤ 9180 + (N % 9 + 1) ∧ 9180 + (N % 9 + 1) ≤ 9189 ∧
    (∀ app2 N2, '/' ∉ app2 → N2 % 9 = N % 9 →
      get_peer_identity (app2 ++ '/' :: natChars N2) address =
        get_peer_identity (app ++ '/' :: natChars N) address) := by
  have hk : N % 9 < 9 := Nat.mod_lt N (by norm_num)
  refine ⟨get_unit_id_eq app N happ, by omega, by omega,
    get_peer_identity_eq app N address happ, ?_, by omega, by omega, ?_⟩
  · generalize N % 9 = k at hk ⊢
    interval_cases k <;> decide
  · intro app2 N2 happ2 hcong
    rw [get_peer_identity_eq app2 N2 address happ2,
      get_peer_identity_eq app N address happ, hcong]

/-- C10 witness: the theorem applied to unit "kine/3" with address
"10.0.0.1": the unit id is 4 and the identity is `4:10.0.0.1:9184`. -/
theorem unit_id_and_peer_identity_witness :
    '/' ∉ ['k', 'i', 'n', 'e'] ∧
    get_unit_id (['k', 'i', 'n', 'e'] ++ '/' :: natChars 3) = some (3 % 9 + 1) ∧
    get_peer_identity (['k', 'i', 'n', 'e'] ++ '/' :: natChars 3)
        ['1', '0', '.', '0', '.', '0', '.', '1'] =
      some (natChars (3 % 9 + 1) ++ ':' ::
        (['1', '0', '.', '0', '.', '0', '.', '1'] ++ ':' ::
          ('9' :: '1' :: '8' :: natChars (3 % 9 + 1)))) :=
  ⟨by decide,
    (unit_id_and_peer_identity ['k', 'i', 'n', 'e'] 3
      ['1', '0', '.', '0', '.', '0', '.', '1'] (by decide)).1,
    (unit_id_and_peer_identity ['k', 'i', 'n', 'e'] 3
      ['1', '0', '.', '0', '.', '0', '.', '1'] (by decide)).2.2.2.1⟩
